import Mathlib

/-!
Verification development for the nodemod-core GoldSrc plugin layer.

Shallow embedding of the three core modules of the repository:
  * `core/msg.ts`  — message interception / replay and `send`
  * `core/cmd.ts`  — command tokenizer and client-command dispatcher
  * `core/menu.ts` — paginated menu state machine (sessions, timers, key mask)

JavaScript numbers that the code treats as integers are modelled as `Int`
(or `Nat` where the source only ever produces non-negative values); the
`v || 0` / `v || ''` truthiness normalizations of the source are embedded
explicitly.  Timers (`setTimeout` / `clearTimeout`) are modelled as a set of
armed timer handles; mutable session objects are modelled as a heap of
numbered references, so the aliasing between a timer callback's captured
state object and the live session table is preserved.
-/

namespace NodemodCore

/-! ## JS truthiness helpers -/

/-- Embeds `v || 0` on a JS number (restricted to integers). -/
def jsOrZero (v : Int) : Int := if v = 0 then 0 else v

/-- Embeds `v || ''` on a JS string. -/
def jsOrEmpty (s : String) : String := if s = "" then "" else s

/-! ## Message data model (`core/msg.ts`) -/

/-- The eight field kinds of `MessageData.type`. -/
inductive MsgFieldType
  | byte | char | short | long | angle | coord | string | entity
deriving DecidableEq, Repr

/-- A field value: numbers (bytes, shorts, entity indices, …) or strings.
Entity references are modelled by their numeric index. -/
inductive MValue
  | num (n : Int)
  | str (s : String)
deriving DecidableEq, Repr

/-- The normalization each `engWrite*` event listener applies before calling
`writeValue`: numeric kinds use `v || 0`, the string kind uses `v || ''`,
the entity kind passes the value through unchanged. -/
def normValue : MsgFieldType → MValue → MValue
  | .string, .str s => .str (jsOrEmpty s)
  | .entity, v => v
  | _, .num n => .num (jsOrZero n)
  | _, v => v

/-- The normalization the replay `writers` table applies: the `string` writer
calls `writeString(v || '')`, the `entity` writer resolves an entity object to
its index (identity on our numeric model), every other writer is direct. -/
def writerNorm : MsgFieldType → MValue → MValue
  | .string, .str s => .str (jsOrEmpty s)
  | _, v => v

/-- One captured field: `{ type, value }` of `MessageData`. -/
abbrev MsgField := MsgFieldType × MValue

/-- Embeds `MessageState` of `core/msg.ts`. -/
structure CapState where
  dest : Int
  type : Int
  name : String
  origin : List Int
  entity : Option Int
  data : List MValue
  rawData : List MsgField
  isMessageEnd : Bool
deriving DecidableEq, Repr

/-- A call that reaches the host's engine primitives (`nodemod.eng.*`):
either performed by the host's own default processing (when the hook left
the meta result at IGNORED) or issued directly by the library. -/
inductive HostCall
  | msgBegin (dest : Int) (type : Int) (origin : List Int) (entity : Option Int)
  | write (ty : MsgFieldType) (v : MValue)
  | msgEnd
deriving DecidableEq, Repr

/-- Host-originated events the interceptor subscribes to. -/
inductive MsgEvent
  | begin (dest : Int) (type : Int) (origin : List Int) (entity : Option Int)
  | writeF (ty : MsgFieldType) (v : MValue)
  | endMsg
  | postEnd
deriving DecidableEq, Repr

/-- One step of the interceptor (`initializeEventHandlers` of `core/msg.ts`),
parametrized by the listener counts `preL name = this.listeners(name).length`
and `postL name = this.listeners('post:' + name).length` and by the host's
`getUserMsgName`.  Returns the new capture state together with the host calls
that reach the engine for this event: a hook that does not set SUPERCEDE
leaves the host's default processing to run (the raw, unnormalized value). -/
def msgStep (preL postL : String → Nat) (msgName : Int → String)
    (st : Option CapState) : MsgEvent → Option CapState × List HostCall
  | .begin d t o e =>
      let name := msgName t
      if preL name = 0 ∧ postL name = 0 then
        (st, [.msgBegin d t o e])
      else
        (some ⟨d, t, name, o, e, [], [], false⟩, [.msgBegin d t o e])
  | .writeF ty v =>
      match st with
      | none => (none, [.write ty v])
      | some s =>
        if s.isMessageEnd then (some s, [.write ty v])
        else (some { s with data := s.data ++ [normValue ty v],
                            rawData := s.rawData ++ [(ty, normValue ty v)] }, [])
  | .endMsg =>
      match st with
      | none => (none, [.msgEnd])
      | some s =>
        -- `this.emit(state.name, state)`: pre-listeners observe the snapshot,
        -- then the end marker is set and every captured field is replayed
        -- through the writers table, then `data` is recomputed from `rawData`.
        let replay := s.rawData.map (fun f => HostCall.write f.1 (writerNorm f.1 f.2))
        (some { s with isMessageEnd := true, data := s.rawData.map (·.2) },
         replay ++ [.msgEnd])
  | .postEnd =>
      match st with
      | none => (none, [])
      | some _ => (none, [])

/-- Run the interceptor over a host event trace, accumulating host calls. -/
def runMsg (preL postL : String → Nat) (msgName : Int → String) :
    Option CapState → List MsgEvent → Option CapState × List HostCall
  | st, [] => (st, [])
  | st, e :: es =>
    let r1 := msgStep preL postL msgName st e
    let r2 := runMsg preL postL msgName r1.1 es
    (r2.1, r1.2 ++ r2.2)

/-- The write-event trace corresponding to a list of fields. -/
def writeEvents (fs : List MsgField) : List MsgEvent :=
  fs.map (fun f => MsgEvent.writeF f.1 f.2)

/-- The host write primitives invoked for a list of fields. -/
def writeCalls (fs : List MsgField) : List HostCall :=
  fs.map (fun f => HostCall.write f.1 f.2)

/-! ## `NodemodMsg.send` (`core/msg.ts`) -/

/-- Embeds `SendOptions.type`: a symbolic message name or a numeric id. -/
inductive MsgTypeArg
  | byName (s : String)
  | byId (n : Int)
deriving DecidableEq, Repr

/-- Embeds `SendOptions` of `core/msg.ts`; entities are modelled by index.
`entity = some 0` models the JS falsy values (`null` / index `0`). -/
structure SendOptions where
  type : MsgTypeArg
  dest : Option Int
  entity : Option Int
  origin : Option (List Int)
  data : List MsgField
deriving Repr

/-- JS truthiness of `options.entity` (a `null` reference or index `0`
is falsy). -/
def entityTruthy : Option Int → Bool
  | some n => n ≠ 0
  | none => false

/-- Embeds `broadcastDestinations` of `NodemodMsg.send`. -/
def broadcastDestinations : List Int := [0, 2, 3, 4, 5, 6, 7, 9]

/-- Embeds `NodemodMsg.send`, parametrized by the host's name→id resolution
(`getUserMsgId`, memoized in the source).  Returns the engine calls issued:
`[]` models the logged-error early returns. -/
def send (resolve : String → Int) (opts : SendOptions) : List HostCall :=
  -- `if (options.type === MsgTypes.bad)` — strict equality with the number 0
  let typeIsBadLiteral : Bool := match opts.type with
    | .byId n => n = 0
    | .byName _ => false
  if typeIsBadLiteral then []
  else
    let dest := opts.dest.getD (if entityTruthy opts.entity then 1 else 2)
    let finalEntity : Option Int :=
      if dest ∈ broadcastDestinations then none
      else if entityTruthy opts.entity then some (opts.entity.getD 0)
      else some 0
    let ty := match opts.type with
      | .byName s => resolve s
      | .byId n => n
    if ty = 0 then []
    else
      [HostCall.msgBegin dest ty (opts.origin.getD [0, 0, 0]) finalEntity]
        ++ opts.data.map (fun f => HostCall.write f.1 (writerNorm f.1 f.2))
        ++ [HostCall.msgEnd]

/-! ## Command tokenizer (`parseCommand` of `core/cmd.ts`) -/

/-- Character-by-character scan of `parseCommand`; the accumulator `current`
is modelled as a list of characters. -/
def parseCommandAux : List Char → List Char → Bool → List String
  | [], current, _ =>
      if current.length > 0 then [String.mk current] else []
  | c :: cs, current, inQuotes =>
      if c = '"' then parseCommandAux cs current (!inQuotes)
      else if c = ' ' ∧ inQuotes = false then
        if current.length > 0 then String.mk current :: parseCommandAux cs [] inQuotes
        else parseCommandAux cs current inQuotes
      else parseCommandAux cs (current ++ [c]) inQuotes

/-- Embeds `NodemodCmd.parseCommand`. -/
def parseCommand (command : String) : List String :=
  parseCommandAux command.data [] false

/-! ## Command dispatcher (`core/cmd.ts`) -/

/-- Meta-result constants used by the dispatcher. -/
def MRES_IGNORED : Int := 1

/-- Embeds `nodemod.MRES.SUPERCEDE`. -/
def MRES_SUPERCEDE : Int := 4

/-- What a handler invocation returns to the dispatch loop:
a synchronous numeric result code, a promise (whose eventual value is
irrelevant to this tick), a plain `undefined` return, or a thrown
exception. -/
inductive HRet
  | mres (v : Int)
  | promise (v : Int)
  | voidRet
  | throwExn
deriving Repr

/-- A handler: an arbitrary effect on the shared meta-result signal (direct
`nodemod.setMetaResult` calls it performs while running) plus what it
returns. -/
structure Handler where
  metaEffect : Int → Int
  ret : HRet

/-- Command context tag. -/
inductive CmdType
  | client | console | server
deriving DecidableEq, Repr

/-- Embeds `CommandOptions` of `core/cmd.ts`. -/
structure CommandOptions where
  name : String
  type : CmdType
  handler : Handler

/-- Embeds `getCommands`: all registrations matching name and type, in
registration order. -/
def getCommands (commands : List CommandOptions) (commandName : String)
    (ty : CmdType) : List CommandOptions :=
  commands.filter (fun v => decide (v.name = commandName ∧ v.type = ty))

/-- One handler invocation of the dispatch loop body: run the handler's
side effects, then `if (typeof result === 'number') setMetaResult(result)`.
`.error` is a thrown exception (the loop has no try/catch), carrying the
meta signal at the throw point. -/
def applyHandler (h : Handler) (meta : Int) : Except Int Int :=
  let m1 := h.metaEffect meta
  match h.ret with
  | .throwExn => .error m1
  | .mres v => .ok v
  | .promise _ => .ok m1
  | .voidRet => .ok m1

/-- Outcome of the `dllClientCommand` listener: the final meta signal and
the registrations whose handlers ran, or an escaped exception. -/
inductive DispatchOutcome
  | ok (meta : Int) (ran : List CommandOptions)
  | exn (meta : Int) (ran : List CommandOptions)

/-- The handlers a dispatch outcome ran. -/
def DispatchOutcome.ran : DispatchOutcome → List CommandOptions
  | .ok _ r => r
  | .exn _ r => r

/-- The meta signal a dispatch outcome left. -/
def DispatchOutcome.meta : DispatchOutcome → Int
  | .ok m _ => m
  | .exn m _ => m

/-- Whether an exception escaped the dispatch. -/
def DispatchOutcome.isExn : DispatchOutcome → Bool
  | .ok _ _ => false
  | .exn _ _ => true

/-- The `for (const command of commands)` loop of the `dllClientCommand`
listener: run each handler, apply a synchronous numeric result to the
signal, break once the signal reads SUPERCEDE; a thrown exception
propagates (there is no try/catch around this loop). -/
def runHandlerLoop : List CommandOptions → Int → DispatchOutcome
  | [], meta => .ok meta []
  | c :: rest, meta =>
    match applyHandler c.handler meta with
    | .error m => .exn m [c]
    | .ok m =>
      if m = MRES_SUPERCEDE then .ok m [c]
      else
        match runHandlerLoop rest m with
        | .ok m2 r => .ok m2 (c :: r)
        | .exn m2 r => .exn m2 (c :: r)

/-- The matched client- and console-context registrations for a raw input
line (`getCommands(commandName, 'client')` / `'console'`); when the input
tokenizes to nothing, `args[0]` is `undefined` and matches no
registration. -/
def matchedCommands (commands : List CommandOptions) (rtext : String) :
    List CommandOptions × List CommandOptions :=
  match parseCommand rtext with
  | [] => ([], [])
  | commandName :: _ =>
    (getCommands commands commandName .client,
     getCommands commands commandName .console)

/-- The `dllClientCommand` listener installed by the `NodemodCmd`
constructor, as a function of the registry, raw text and the shared meta
signal at entry. -/
def dllClientCommand (commands : List CommandOptions) (rtext : String)
    (meta0 : Int) : DispatchOutcome :=
  if meta0 = MRES_SUPERCEDE then .ok meta0 []
  else
    let mc := matchedCommands commands rtext
    let clientCommands := mc.1
    let consoleCommands := mc.2
    let matched := clientCommands ++ consoleCommands
    if matched.isEmpty then .ok meta0 []
    else
      match runHandlerLoop matched meta0 with
      | .exn m r => .exn m r
      | .ok m r =>
        -- Auto-SUPERCEDE only for console commands
        if clientCommands.isEmpty ∧ m = MRES_IGNORED then .ok MRES_SUPERCEDE r
        else .ok m r

/-- The engine-registered wrapper for `type: 'console'` commands
(`consoleHandler` inside `NodemodCmd.add`): builds the context from the
host's argument accessors, runs the handler inside try/catch, and logs a
contextful error when it throws.  The handler is modelled by whether it
throws on the given context. -/
structure CommandContextM where
  text : String
  args : List String
  client : Option Int

/-- Outcome of running an arbitrary handler body. -/
inductive HandlerExc
  | ok
  | throwExn
deriving DecidableEq, Repr

/-- Embeds `consoleHandler` of `NodemodCmd.add` — returns the log lines produced;
it always returns normally (the try/catch contains the handler). -/
def consoleHandler (name : String) (handler : CommandContextM → HandlerExc)
    (engArgs : List String) (engRaw : String) : List String :=
  let ctx : CommandContextM := ⟨engRaw, engArgs, none⟩
  match handler ctx with
  | .ok => []
  | .throwExn => ["Error in console command " ++ name]

/-! ## Menu data model (`core/menu.ts`) -/

/-- A `MenuItem`: `handler = some b` means an item handler is present and
`b` records whether invoking it throws; `submenu` is an index into the menu
table. -/
structure MenuItemM where
  disabled : Bool
  handler : Option Bool
  submenu : Option Nat
deriving DecidableEq, Repr

/-- A `Menu` (immutable once shown); `entity` is the bound recipient's
client index (`none` = broadcast to all players), `hasParent` records
whether `parent` is defined (set when attached as a submenu). -/
structure MenuDef where
  items : List MenuItemM
  time : Int
  entity : Option Nat
  hasParent : Bool
deriving DecidableEq, Repr

/-- Embeds `ITEMS_PER_PAGE` of `NodemodMenu`. -/
def ITEMS_PER_PAGE : Nat := 7

/-- Embeds `Math.ceil(items.length / ITEMS_PER_PAGE)`. -/
def totalPagesOf (items : List MenuItemM) : Nat :=
  (items.length + ITEMS_PER_PAGE - 1) / ITEMS_PER_PAGE

/-- Embeds `menu.items.slice(startIndex, endIndex)` of `buildMenuDisplay`. -/
def pageItemsOf (items : List MenuItemM) (page : Nat) : List MenuItemM :=
  let startIndex := page * ITEMS_PER_PAGE
  let endIndex := min (startIndex + ITEMS_PER_PAGE) items.length
  (items.drop startIndex).take (endIndex - startIndex)

/-- Embeds `!item.disabled && (item.handler || item.submenu)`. -/
def selectable (it : MenuItemM) : Bool :=
  (!it.disabled) && (it.handler.isSome || it.submenu.isSome)

/-- The `pageItems.forEach` accumulation of
`keyMask |= (1 << (displayNumber - 1))` over the page's items. -/
def itemMaskAux : List MenuItemM → Nat → Nat
  | [], _ => 0
  | it :: rest, idx =>
    (if selectable it then 1 <<< idx else 0) ||| itemMaskAux rest (idx + 1)

/-- The `keyMask` computed by `buildMenuDisplay` (the text block assembly of
that function is omitted: it does not feed back into the mask or the
state machine). -/
def buildKeyMask (items : List MenuItemM) (page : Nat) : Nat :=
  let pageItems := pageItemsOf items page
  let totalPages := totalPagesOf items
  let m1 := itemMaskAux pageItems 0
  let m2 := if page > 0 then m1 ||| (1 <<< 7) else m1
  let m3 := if page < totalPages - 1 then m2 ||| (1 <<< 8) else m2
  m3 ||| (1 <<< 9)

/-! ## Menu sessions, timers and navigation (`core/menu.ts`) -/

/-- A key of the `menuStates` map: a client index or the sentinel `'all'`. -/
inductive MKey
  | player (i : Nat)
  | all
deriving DecidableEq, Repr

/-- A `MenuState` session object (`menu` is an index into the menu table,
`history` a list of such indices, most recent last, as JS `push`/`pop`
operate on the tail). -/
structure SessionState where
  menuIdx : Nat
  currentPage : Nat
  history : List Nat
  isAll : Bool
  used : List Nat
  timeoutId : Option Nat
deriving DecidableEq, Repr

/-- Association-list lookup (JS object property read; `none` = `undefined`). -/
def alook {κ ν : Type} [DecidableEq κ] : List (κ × ν) → κ → Option ν
  | [], _ => none
  | (k, v) :: rest, key => if k = key then some v else alook rest key

/-- Association-list update (JS property assignment). -/
def aset {κ ν : Type} [DecidableEq κ] : List (κ × ν) → κ → ν → List (κ × ν)
  | [], key, v => [(key, v)]
  | (k, w) :: rest, key, v =>
    if k = key then (key, v) :: rest else (k, w) :: aset rest key v

/-- Association-list removal (JS `delete`). -/
def adel {κ ν : Type} [DecidableEq κ] : List (κ × ν) → κ → List (κ × ν)
  | [], _ => []
  | (k, w) :: rest, key =>
    if k = key then adel rest key else (k, w) :: adel rest key

/-- The menu system's mutable state: `heap` gives each live session object a
numbered reference (preserving the aliasing between `menuStates` entries and
the state objects captured by timer callbacks), `timers` is the set of armed
`setTimeout` handles with the `(clientIndex, stateRef)` their callback
captured. -/
structure MenuSys where
  heap : List (Nat × SessionState)
  nextRef : Nat
  menuStates : List (MKey × Nat)
  timers : List (Nat × (Nat × Nat))
  nextTimerId : Nat
deriving DecidableEq, Repr

/-- The state of a freshly constructed `NodemodMenu`. -/
def emptyMenuSys : MenuSys := ⟨[], 0, [], [], 1⟩

/-- Embeds `cleanupMenuState(client, state)`: clear the state's timer (if any) and
delete the session's map entry (`'all'` when the state is all-scoped, the
client's index otherwise). -/
def cleanupMenuState (sys : MenuSys) (client : Nat) (ref : Nat) : MenuSys :=
  match alook sys.heap ref with
  | none => sys
  | some st =>
    let timers1 := match st.timeoutId with
      | some tid => adel sys.timers tid
      | none => sys.timers
    let key := if st.isAll then MKey.all else MKey.player client
    { sys with timers := timers1, menuStates := adel sys.menuStates key }

/-- Embeds `showMenuInternal(menu, client, state, page)`: set the page and menu on
the session, clear its existing timeout, arm a fresh one when
`menu.time > 0` (the callback capturing this client and state object), and
send the rendered `ShowMenu` message (the message itself is embedded via
`buildKeyMask`; it does not alter the session state). -/
def showMenuInternal (table : List MenuDef) (sys : MenuSys) (client : Nat)
    (ref : Nat) (menuIdx : Nat) (page : Nat) : MenuSys :=
  match alook sys.heap ref, table.get? menuIdx with
  | some st, some menu =>
    let st1 := { st with currentPage := page, menuIdx := menuIdx }
    let timers1 := match st1.timeoutId with
      | some tid => adel sys.timers tid
      | none => sys.timers
    if menu.time > 0 then
      let tid := sys.nextTimerId
      { sys with heap := aset sys.heap ref { st1 with timeoutId := some tid },
                 timers := timers1 ++ [(tid, (client, ref))],
                 nextTimerId := tid + 1 }
    else
      { sys with heap := aset sys.heap ref st1, timers := timers1 }
  | _, _ => sys

/-- The body of the `clients.forEach` loop of `NodemodMenu.show`: build a
fresh session object, install it under the recipient key (overwriting any
existing entry), and render page 0. -/
def showMenuForClient (table : List MenuDef) (menuIdx : Nat) (menu : MenuDef)
    (sys : MenuSys) (client : Nat) : MenuSys :=
  let ref := sys.nextRef
  let st : SessionState :=
    ⟨menuIdx, 0, [], menu.entity.isNone, [], none⟩
  let key := match menu.entity with
    | some _ => MKey.player client
    | none => MKey.all
  let sys1 := { sys with heap := sys.heap ++ [(ref, st)], nextRef := ref + 1,
                         menuStates := aset sys.menuStates key ref }
  showMenuInternal table sys1 client ref menuIdx 0

/-- Embeds `NodemodMenu.show`: one fresh session per targeted client
(`[menu.entity]`, or every connected player for a broadcast menu). -/
def showMenu (table : List MenuDef) (sys : MenuSys) (menuIdx : Nat)
    (players : List Nat) : MenuSys :=
  match table.get? menuIdx with
  | none => sys
  | some menu =>
    let clients := match menu.entity with
      | some e => [e]
      | none => players
    clients.foldl (showMenuForClient table menuIdx menu) sys

/-- An armed auto-close timer fires: the handle is no longer armed, the
captured menu's `onTimeout` runs, then `cleanupMenuState` on the captured
client and state object. -/
def fireTimer (sys : MenuSys) (tid : Nat) : MenuSys :=
  match alook sys.timers tid with
  | none => sys
  | some cr =>
    let sys1 := { sys with timers := adel sys.timers tid }
    cleanupMenuState sys1 cr.1 cr.2

/-- Embeds `handleBackExit`: pop the navigation history and redraw the popped menu
at page 0, or (empty history) tear the session down and run `onExit`. -/
def handleBackExit (table : List MenuDef) (sys : MenuSys) (client : Nat)
    (ref : Nat) : MenuSys :=
  match alook sys.heap ref with
  | none => sys
  | some st =>
    match st.history.getLast? with
    | some previousMenu =>
      let sys1 := { sys with
        heap := aset sys.heap ref { st with history := st.history.dropLast } }
      showMenuInternal table sys1 client ref previousMenu 0
    | none =>
      cleanupMenuState sys client ref

/-- Embeds `handlePrevPage`. -/
def handlePrevPage (table : List MenuDef) (sys : MenuSys) (client : Nat)
    (ref : Nat) : MenuSys :=
  match alook sys.heap ref with
  | none => sys
  | some st =>
    if st.currentPage > 0 then
      showMenuInternal table sys client ref st.menuIdx (st.currentPage - 1)
    else sys

/-- Embeds `handleNextPage`. -/
def handleNextPage (table : List MenuDef) (sys : MenuSys) (client : Nat)
    (ref : Nat) : MenuSys :=
  match alook sys.heap ref with
  | none => sys
  | some st =>
    match table.get? st.menuIdx with
    | none => sys
    | some menu =>
      let totalPages := totalPagesOf menu.items
      if st.currentPage < totalPages - 1 then
        showMenuInternal table sys client ref st.menuIdx (st.currentPage + 1)
      else sys

/-- Embeds `handleItemSelection(client, state, selection)`: resolve the item at
`currentPage * ITEMS_PER_PAGE + (selection - 1)`; ignore missing/disabled
items; navigate into a submenu (pushing the current menu onto the history);
or run the item handler inside try/catch (logging a thrown error) and tear
down non-broadcast sessions.  Returns the new state and the log lines. -/
def handleItemSelection (table : List MenuDef) (sys : MenuSys) (client : Nat)
    (ref : Nat) (selection : Int) : MenuSys × List String :=
  match alook sys.heap ref with
  | none => (sys, [])
  | some st =>
    match table.get? st.menuIdx with
    | none => (sys, [])
    | some menu =>
      let itemIndex : Int := (st.currentPage * ITEMS_PER_PAGE : Nat) + (selection - 1)
      let item? := if itemIndex < 0 then none else menu.items.get? itemIndex.toNat
      match item? with
      | none => (sys, [])
      | some item =>
        if item.disabled then (sys, [])
        else
          match item.submenu with
          | some sub =>
            let sys1 := { sys with
              heap := aset sys.heap ref { st with history := st.history ++ [st.menuIdx] } }
            (showMenuInternal table sys1 client ref sub 0, [])
          | none =>
            match item.handler with
            | some throws =>
              let st1 := { st with used := st.used ++ [client] }
              let sys1 := { sys with heap := aset sys.heap ref st1 }
              let logs := if throws then ["Menu handler error:"] else []
              let sys2 := if st1.isAll then sys1 else cleanupMenuState sys1 client ref
              (sys2, logs)
            | none => (sys, [])

/-- JS `String.split(' ')` (all separators kept, empty fields preserved),
scanning the character list. -/
def jsSplitSpaceAux : List Char → List Char → List String
  | [], cur => [String.mk cur]
  | c :: cs, cur =>
    if c = ' ' then String.mk cur :: jsSplitSpaceAux cs []
    else jsSplitSpaceAux cs (cur ++ [c])

/-- Embeds `text.split(' ')` of `handleMenuCommand`. -/
def jsSplitSpace (s : String) : List String := jsSplitSpaceAux s.data []

/-- JS `parseInt` restricted to decimal input: `none` models `NaN`. -/
def jsParseInt (s : String) : Option Int :=
  let cs := s.data.dropWhile (· = ' ')
  let signAndRest : Bool × List Char := match cs with
    | '-' :: r => (true, r)
    | '+' :: r => (false, r)
    | r => (false, r)
  let ds := signAndRest.2.takeWhile Char.isDigit
  if ds.isEmpty then none
  else
    let n : Nat := ds.foldl (fun acc c => acc * 10 + (c.toNat - '0'.toNat)) 0
    some (if signAndRest.1 then -(n : Int) else (n : Int))

/-- Embeds `handleMenuCommand(client, text)`, threading the shared meta signal:
`text.split(' ')`, bail out unless `args[0] === 'menuselect'`, look up the
client's session falling back to the `'all'` session, bail out when neither
exists, otherwise force SUPERCEDE and process the selection
(`parseInt(args[1])`; `NaN` reaches `handleItemSelection`, where
`items[NaN]` is `undefined` and the selection is ignored). -/
def handleMenuCommand (table : List MenuDef) (sys : MenuSys) (client : Nat)
    (text : String) (meta : Int) : MenuSys × Int × List String :=
  let args := jsSplitSpace text
  if args.headD "" ≠ "menuselect" then (sys, meta, [])
  else
    let selection := jsParseInt (args.getD 1 "")
    let ref? := (alook sys.menuStates (MKey.player client)).orElse
      (fun _ => alook sys.menuStates MKey.all)
    match ref? with
    | none => (sys, meta, [])
    | some ref =>
      let meta1 := MRES_SUPERCEDE
      match selection with
      | some s =>
        if s = 0 ∨ s = 10 then (handleBackExit table sys client ref, meta1, [])
        else if s = 8 then (handlePrevPage table sys client ref, meta1, [])
        else if s = 9 then (handleNextPage table sys client ref, meta1, [])
        else
          let r := handleItemSelection table sys client ref s
          (r.1, meta1, r.2)
      | none =>
        (sys, meta1, [])

/-- Embeds `closeMenu(client)`: the client's own session, or failing that the
shared `'all'` session, is torn down. -/
def closeMenu (sys : MenuSys) (client : Nat) : MenuSys :=
  let ref? := (alook sys.menuStates (MKey.player client)).orElse
    (fun _ => alook sys.menuStates MKey.all)
  match ref? with
  | some ref => cleanupMenuState sys client ref
  | none => sys

/-! ## Dispatcher properties -/

/-- Embeds `matched = [...clientCommands, ...consoleCommands]` of the listener. -/
def matchedAll (commands : List CommandOptions) (rtext : String) :
    List CommandOptions :=
  (matchedCommands commands rtext).1 ++ (matchedCommands commands rtext).2

/-- Sequential application of every handler in a list to the meta signal,
with no early stop (the reference against which the loop's stopping
behavior is stated). -/
def applySeq : List CommandOptions → Int → Except Int Int
  | [], meta => .ok meta
  | c :: rest, meta =>
    match applyHandler c.handler meta with
    | .error m => .error m
    | .ok m => applySeq rest m

/-- A console-context registration whose handler touches nothing and
returns `undefined`. -/
def consoleOnlyCmd : CommandOptions := ⟨"w", .console, ⟨fun m => m, .voidRet⟩⟩

/-- A client-context registration whose handler throws. -/
def throwingClientCmd : CommandOptions := ⟨"x", .client, ⟨fun m => m, .throwExn⟩⟩

/-- A menu whose single enabled item has a throwing handler, bound to
client 1. -/
def c3item : MenuItemM := ⟨false, some true, none⟩

def c3menu : MenuDef := ⟨[c3item], -1, some 1, false⟩

def c3table : List MenuDef := [c3menu]

/-- The session state after showing `c3menu` to its client. -/
def c3sys : MenuSys := showMenu c3table emptyMenuSys 0 []

/-- A menu with a 5-second auto-close bound to client 1, and a replacement
menu with no auto-close for the same client. -/
def menuA : MenuDef := ⟨[], 5, some 1, false⟩

def menuB : MenuDef := ⟨[], -1, some 1, false⟩

def c2table : List MenuDef := [menuA, menuB]

/-- A broadcast menu with an auto-close, shown to players 1 and 2. -/
def c10menu : MenuDef := ⟨[], 5, none, false⟩

def c10table : List MenuDef := [c10menu]

def c10sys : MenuSys := showMenu c10table emptyMenuSys 0 [1, 2]

/-! ## Theorems -/

theorem jsOrZero_eq (v : Int) : jsOrZero v = v := by
  unfold jsOrZero; split <;> simp_all

theorem jsOrEmpty_eq (s : String) : jsOrEmpty s = s := by
  unfold jsOrEmpty; split <;> simp_all

theorem normValue_eq (ty : MsgFieldType) (v : MValue) : normValue ty v = v := by
  cases ty <;> cases v <;> simp [normValue, jsOrZero_eq, jsOrEmpty_eq]

theorem writerNorm_eq (ty : MsgFieldType) (v : MValue) : writerNorm ty v = v := by
  cases ty <;> cases v <;> simp [writerNorm, jsOrEmpty_eq]

/-! ## Association-list lemmas -/

theorem alook_adel {κ ν : Type} [DecidableEq κ] (l : List (κ × ν)) (k : κ) :
    alook (adel l k) k = none := by
  induction l with
  | nil => rfl
  | cons p rest ih =>
    obtain ⟨k1, v1⟩ := p
    by_cases h : k1 = k
    · simpa [adel, h] using ih
    · simp [adel, alook, h, ih]

theorem alook_aset_self {κ ν : Type} [DecidableEq κ] (l : List (κ × ν))
    (k : κ) (v : ν) : alook (aset l k v) k = some v := by
  induction l with
  | nil => simp [aset, alook]
  | cons p rest ih =>
    obtain ⟨k1, v1⟩ := p
    by_cases h : k1 = k
    · simp [aset, h, alook]
    · simp [aset, alook, h, ih]

/-! ## Tokenizer properties -/

theorem parseCommandAux_no_quote (cs : List Char) : ∀ (cur : List Char) (inQ : Bool),
    (∀ c ∈ cur, c ≠ '"') → ∀ t ∈ parseCommandAux cs cur inQ, ∀ c ∈ t.data, c ≠ '"' := by
  induction cs with
  | nil =>
    intro cur inQ h t ht c hc
    simp only [parseCommandAux] at ht
    split at ht
    · simp only [List.mem_singleton] at ht
      subst ht
      exact h c hc
    · simp at ht
  | cons ch cs ih =>
    intro cur inQ h t ht c hc
    simp only [parseCommandAux] at ht
    by_cases h1 : ch = '"'
    · rw [if_pos h1] at ht
      exact ih cur (!inQ) h t ht c hc
    · rw [if_neg h1] at ht
      by_cases h2 : ch = ' ' ∧ inQ = false
      · rw [if_pos h2] at ht
        by_cases h3 : cur.length > 0
        · rw [if_pos h3] at ht
          rcases List.mem_cons.mp ht with h4 | h4
          · subst h4; exact h c hc
          · exact ih [] inQ (by simp) t h4 c hc
        · rw [if_neg h3] at ht
          exact ih cur inQ h t ht c hc
      · rw [if_neg h2] at ht
        refine ih (cur ++ [ch]) inQ ?_ t ht c hc
        intro d hd
        rcases List.mem_append.mp hd with h5 | h5
        · exact h d h5
        · simp only [List.mem_singleton] at h5
          subst h5
          exact h1

/-- C6: `parseCommand` scans character by character, a double quote toggles
the quoted flag, an unquoted space separates tokens, and quotes are excluded
from the output; `parseCommand 'a "b c" d' = ['a', 'b c', 'd']`, an unmatched
trailing quote yields the remainder as one token, and the empty string yields
`[]`. -/
theorem C6_tokenizer :
    parseCommand "a \"b c\" d" = ["a", "b c", "d"] ∧
    parseCommand "" = [] ∧
    parseCommand "a \"b c" = ["a", "b c"] ∧
    (∀ s : String, ∀ t ∈ parseCommand s, ∀ c ∈ t.data, c ≠ '"') := by
  refine ⟨by decide, by decide, by decide, ?_⟩
  intro s t ht c hc
  exact parseCommandAux_no_quote s.data [] false (by simp) t ht c hc

/-- C6 witness: the tokenizer theorem applied at a concrete input. -/
theorem C6_tokenizer_witness :
    "b c" ∈ parseCommand "a \"b c\" d" ∧ ∀ c ∈ ("b c" : String).data, c ≠ '"' :=
  ⟨by decide, C6_tokenizer.2.2.2 "a \"b c\" d" "b c" (by decide)⟩

/-! ## Key-mask characterization -/

theorem testBit_itemMaskAux (l : List MenuItemM) : ∀ i k : Nat,
    (itemMaskAux l i).testBit k =
      ((l[(k - i)]?).elim false selectable && decide (i ≤ k)) := by
  induction l with
  | nil => intro i k; simp [itemMaskAux]
  | cons it rest ih =>
    intro i k
    simp only [itemMaskAux, Nat.testBit_lor]
    rcases Nat.lt_trichotomy k i with hlt | heq | hgt
    · have h1 : ¬ i ≤ k := Nat.not_le.mpr hlt
      have h2 : ¬ i + 1 ≤ k := by omega
      have hbit : (if selectable it then 1 <<< i else 0).testBit k = false := by
        split
        · rw [Nat.shiftLeft_eq, one_mul]
          exact Nat.testBit_two_pow_of_ne (by omega)
        · simp
      rw [hbit, ih (i + 1) k]
      simp [h1, h2]
    · subst heq
      have hbit : (if selectable it then 1 <<< k else 0).testBit k = selectable it := by
        by_cases h : selectable it
        · rw [if_pos h, Nat.shiftLeft_eq, one_mul, h]
          exact Nat.testBit_two_pow_self
        · rw [if_neg h]
          simp only [Bool.not_eq_true] at h
          simp [h]
      have h2 : ¬ k + 1 ≤ k := by omega
      rw [hbit, ih (k + 1) k]
      simp [h2, Nat.sub_self]
    · have hbit : (if selectable it then 1 <<< i else 0).testBit k = false := by
        split
        · rw [Nat.shiftLeft_eq, one_mul]
          exact Nat.testBit_two_pow_of_ne (by omega)
        · simp
      have h1 : i ≤ k := le_of_lt hgt
      have h2 : i + 1 ≤ k := hgt
      have h3 : k - i = (k - (i + 1)) + 1 := by omega
      rw [hbit, ih (i + 1) k, h3]
      simp [h1, h2]

theorem pageItemsOf_length_le (items : List MenuItemM) (page : Nat) :
    (pageItemsOf items page).length ≤ 7 := by
  simp only [pageItemsOf, ITEMS_PER_PAGE, List.length_take, List.length_drop,
    min_def]
  split_ifs <;> omega

theorem testBit_buildKeyMask_low (items : List MenuItemM) (page k : Nat)
    (hk : k ≤ 6) :
    (buildKeyMask items page).testBit k =
      ((pageItemsOf items page)[k]?).elim false selectable := by
  have e7 : (1 <<< 7 : Nat) = 2 ^ 7 := by decide
  have e8 : (1 <<< 8 : Nat) = 2 ^ 8 := by decide
  have e9 : (1 <<< 9 : Nat) = 2 ^ 9 := by decide
  have hb7 : Nat.testBit (1 <<< 7) k = false := by
    rw [e7]; exact Nat.testBit_two_pow_of_ne (by omega)
  have hb8 : Nat.testBit (1 <<< 8) k = false := by
    rw [e8]; exact Nat.testBit_two_pow_of_ne (by omega)
  have hb9 : Nat.testBit (1 <<< 9) k = false := by
    rw [e9]; exact Nat.testBit_two_pow_of_ne (by omega)
  have hmask := testBit_itemMaskAux (pageItemsOf items page) 0 k
  simp only [Nat.sub_zero, Nat.zero_le, decide_True, Bool.and_true] at hmask
  simp only [buildKeyMask]
  split <;> split <;>
    simp only [Nat.testBit_lor, hmask, hb7, hb8, hb9, Bool.or_false]

theorem testBit_buildKeyMask_high (items : List MenuItemM) (page k : Nat)
    (hk : 7 ≤ k) :
    ((buildKeyMask items page).testBit k = true) ↔
      ((k = 7 ∧ page > 0) ∨ (k = 8 ∧ page < totalPagesOf items - 1) ∨ k = 9) := by
  have hitem : (itemMaskAux (pageItemsOf items page) 0).testBit k = false := by
    rw [testBit_itemMaskAux]
    have hnone : (pageItemsOf items page)[k]? = none := by
      apply List.getElem?_eq_none
      have := pageItemsOf_length_le items page
      omega
    simp [Nat.sub_zero, hnone]
  have e7 : (1 <<< 7 : Nat) = 2 ^ 7 := by decide
  have e8 : (1 <<< 8 : Nat) = 2 ^ 8 := by decide
  have e9 : (1 <<< 9 : Nat) = 2 ^ 9 := by decide
  have hb7 : Nat.testBit (1 <<< 7) k = decide (k = 7) := by
    by_cases h : k = 7
    · subst h; decide
    · rw [e7, Nat.testBit_two_pow_of_ne (fun hh => h hh.symm)]
      simp [h]
  have hb8 : Nat.testBit (1 <<< 8) k = decide (k = 8) := by
    by_cases h : k = 8
    · subst h; decide
    · rw [e8, Nat.testBit_two_pow_of_ne (fun hh => h hh.symm)]
      simp [h]
  have hb9 : Nat.testBit (1 <<< 9) k = decide (k = 9) := by
    by_cases h : k = 9
    · subst h; decide
    · rw [e9, Nat.testBit_two_pow_of_ne (fun hh => h hh.symm)]
      simp [h]
  simp only [buildKeyMask]
  split <;> split <;>
    (simp only [Nat.testBit_lor, hitem, hb7, hb8, hb9, Bool.false_or,
      Bool.or_eq_true, decide_eq_true_eq]
     omega)

/-- C7: each menu page holds at most 7 items; the per-render key mask sets
bit `n-1` exactly for the enabled selectable item in slot `n` (1–7), bit 7
iff the page is not the first, bit 8 iff the page is not the last, and bit 9
always; a 15-item menu has `ceil(15/7) = 3` pages with "next" enabled on
pages 0–1 only and "previous" enabled on pages 1–2 only. -/
theorem C7_menu_pagination_key_mask :
    (∀ items page, (pageItemsOf items page).length ≤ 7) ∧
    (∀ items page n, 1 ≤ n → n ≤ 7 →
      (buildKeyMask items page).testBit (n - 1) =
        ((pageItemsOf items page)[(n - 1)]?).elim false selectable) ∧
    (∀ items page, ((buildKeyMask items page).testBit 7 = true) ↔ page > 0) ∧
    (∀ items page, ((buildKeyMask items page).testBit 8 = true) ↔
      page < totalPagesOf items - 1) ∧
    (∀ items page, (buildKeyMask items page).testBit 9 = true) ∧
    (∀ items : List MenuItemM, items.length = 15 →
      totalPagesOf items = 3 ∧
      (buildKeyMask items 0).testBit 8 = true ∧
      (buildKeyMask items 1).testBit 8 = true ∧
      (buildKeyMask items 2).testBit 8 = false ∧
      (buildKeyMask items 0).testBit 7 = false ∧
      (buildKeyMask items 1).testBit 7 = true ∧
      (buildKeyMask items 2).testBit 7 = true) := by
  have h7 : ∀ items page, ((buildKeyMask items page).testBit 7 = true) ↔ page > 0 := by
    intro items page
    rw [testBit_buildKeyMask_high items page 7 (by omega)]
    simp
  have h8 : ∀ items page, ((buildKeyMask items page).testBit 8 = true) ↔
      page < totalPagesOf items - 1 := by
    intro items page
    rw [testBit_buildKeyMask_high items page 8 (by omega)]
    simp
  refine ⟨pageItemsOf_length_le, ?_, h7, h8, ?_, ?_⟩
  · intro items page n h1 h2
    exact testBit_buildKeyMask_low items page (n - 1) (by omega)
  · intro items page
    rw [testBit_buildKeyMask_high items page 9 (by omega)]
    simp
  · intro items hlen
    have htot : totalPagesOf items = 3 := by
      simp [totalPagesOf, hlen, ITEMS_PER_PAGE]
    refine ⟨htot, ?_, ?_, ?_, ?_, ?_, ?_⟩
    · rw [h8, htot]; omega
    · rw [h8, htot]; omega
    · rw [Bool.eq_false_iff]
      intro h
      have h2 := (h8 items 2).mp h
      rw [htot] at h2
      omega
    · rw [Bool.eq_false_iff]
      intro h
      have h2 := (h7 items 0).mp h
      omega
    · rw [h7]; omega
    · rw [h7]; omega

/-- C7 witness: the pagination/key-mask theorem applied to a concrete
15-item menu. -/
theorem C7_menu_pagination_key_mask_witness :
    (List.replicate 15 (⟨false, some false, none⟩ : MenuItemM)).length = 15 ∧
    totalPagesOf (List.replicate 15 (⟨false, some false, none⟩ : MenuItemM)) = 3 ∧
    (buildKeyMask (List.replicate 15 (⟨false, some false, none⟩ : MenuItemM)) 2).testBit 8
      = false :=
  ⟨by decide,
   (C7_menu_pagination_key_mask.2.2.2.2.2
      (List.replicate 15 ⟨false, some false, none⟩) (by decide)).1,
   (C7_menu_pagination_key_mask.2.2.2.2.2
      (List.replicate 15 ⟨false, some false, none⟩) (by decide)).2.2.2.1⟩

theorem runHandlerLoop_cons (c : CommandOptions) (rest : List CommandOptions)
    (meta : Int) :
    runHandlerLoop (c :: rest) meta =
      (match applyHandler c.handler meta with
      | .error m => .exn m [c]
      | .ok m =>
        if m = MRES_SUPERCEDE then .ok m [c]
        else match runHandlerLoop rest m with
          | .ok m2 r => .ok m2 (c :: r)
          | .exn m2 r => .exn m2 (c :: r)) := rfl

theorem runHandlerLoop_ran_isInitSeg (l : List CommandOptions) :
    ∀ meta : Int, ∃ t, (runHandlerLoop l meta).ran ++ t = l := by
  induction l with
  | nil => intro meta; exact ⟨[], rfl⟩
  | cons c rest ih =>
    intro meta
    cases ha : applyHandler c.handler meta with
    | error m =>
      simp only [runHandlerLoop_cons, ha]
      exact ⟨rest, rfl⟩
    | ok m =>
      by_cases h4 : m = MRES_SUPERCEDE
      · simp only [runHandlerLoop_cons, ha, if_pos h4]
        exact ⟨rest, rfl⟩
      · obtain ⟨t, ht⟩ := ih m
        cases h2 : runHandlerLoop rest m with
        | ok m2 r =>
          simp only [runHandlerLoop_cons, ha, if_neg h4, h2]
          rw [h2] at ht
          simp only [DispatchOutcome.ran] at ht ⊢
          exact ⟨t, by rw [List.cons_append, ht]⟩
        | exn m2 r =>
          simp only [runHandlerLoop_cons, ha, if_neg h4, h2]
          rw [h2] at ht
          simp only [DispatchOutcome.ran] at ht ⊢
          exact ⟨t, by rw [List.cons_append, ht]⟩

theorem runHandlerLoop_early_stop (l : List CommandOptions) :
    ∀ (meta m : Int) (r : List CommandOptions),
      runHandlerLoop l meta = .ok m r → r.length < l.length →
      m = MRES_SUPERCEDE := by
  induction l with
  | nil =>
    intro meta m r h hl
    simp only [runHandlerLoop] at h
    injection h with h1 h2
    subst h2
    simp at hl
  | cons c rest ih =>
    intro meta m r h hl
    cases ha : applyHandler c.handler meta with
    | error me =>
      simp only [runHandlerLoop_cons, ha] at h
      cases h
    | ok m1 =>
      by_cases h4 : m1 = MRES_SUPERCEDE
      · simp only [runHandlerLoop_cons, ha, if_pos h4] at h
        injection h with h5 h6
        rw [← h5, h4]
      · cases h2 : runHandlerLoop rest m1 with
        | ok m2 r2 =>
          simp only [runHandlerLoop_cons, ha, if_neg h4, h2] at h
          injection h with h5 h6
          subst h5
          subst h6
          exact ih m1 m2 r2 h2 (by simpa using hl)
        | exn m2 r2 =>
          simp only [runHandlerLoop_cons, ha, if_neg h4, h2] at h
          cases h

theorem runHandlerLoop_final_meta (l : List CommandOptions) :
    ∀ (meta m : Int) (r : List CommandOptions),
      runHandlerLoop l meta = .ok m r →
      applySeq (l.take r.length) meta = .ok m := by
  induction l with
  | nil =>
    intro meta m r h
    simp only [runHandlerLoop] at h
    injection h with h1 h2
    subst h1 h2
    rfl
  | cons c rest ih =>
    intro meta m r h
    cases ha : applyHandler c.handler meta with
    | error me =>
      simp only [runHandlerLoop_cons, ha] at h
      cases h
    | ok m1 =>
      by_cases h4 : m1 = MRES_SUPERCEDE
      · simp only [runHandlerLoop_cons, ha, if_pos h4] at h
        injection h with h5 h6
        subst h5 h6
        simp only [List.length_cons, List.length_nil, Nat.zero_add,
          List.take_succ_cons, List.take_zero, applySeq, ha]
      · cases h2 : runHandlerLoop rest m1 with
        | ok m2 r2 =>
          simp only [runHandlerLoop_cons, ha, if_neg h4, h2] at h
          injection h with h5 h6
          subst h5 h6
          simp only [List.length_cons, List.take_succ_cons, applySeq, ha]
          exact ih m1 m2 r2 h2
        | exn m2 r2 =>
          simp only [runHandlerLoop_cons, ha, if_neg h4, h2] at h
          cases h

theorem runHandlerLoop_no_overrun (l : List CommandOptions) :
    ∀ (meta : Int) (k : Nat), 0 < k →
      k < (runHandlerLoop l meta).ran.length →
      ∃ m, applySeq (l.take k) meta = .ok m ∧ m ≠ MRES_SUPERCEDE := by
  induction l with
  | nil =>
    intro meta k h0 hk
    simp [runHandlerLoop, DispatchOutcome.ran] at hk
  | cons c rest ih =>
    intro meta k h0 hk
    cases ha : applyHandler c.handler meta with
    | error me =>
      simp only [runHandlerLoop_cons, ha, DispatchOutcome.ran,
        List.length_cons, List.length_nil] at hk
      omega
    | ok m1 =>
      by_cases h4 : m1 = MRES_SUPERCEDE
      · simp only [runHandlerLoop_cons, ha, if_pos h4, DispatchOutcome.ran,
          List.length_cons, List.length_nil] at hk
        omega
      · cases h2 : runHandlerLoop rest m1 with
        | ok m2 r2 =>
          simp only [runHandlerLoop_cons, ha, if_neg h4, h2,
            DispatchOutcome.ran, List.length_cons] at hk
          match k, h0 with
          | 1, _ =>
            refine ⟨m1, ?_, h4⟩
            simp only [List.take_succ_cons, List.take_zero, applySeq, ha]
          | (j + 2), _ =>
            have hj : j + 1 < (runHandlerLoop rest m1).ran.length := by
              rw [h2]; simp only [DispatchOutcome.ran]; omega
            obtain ⟨m, hm, hm4⟩ := ih m1 (j + 1) (by omega) hj
            refine ⟨m, ?_, hm4⟩
            simp only [List.take_succ_cons, applySeq, ha]
            exact hm
        | exn m2 r2 =>
          simp only [runHandlerLoop_cons, ha, if_neg h4, h2,
            DispatchOutcome.ran, List.length_cons] at hk
          match k, h0 with
          | 1, _ =>
            refine ⟨m1, ?_, h4⟩
            simp only [List.take_succ_cons, List.take_zero, applySeq, ha]
          | (j + 2), _ =>
            have hj : j + 1 < (runHandlerLoop rest m1).ran.length := by
              rw [h2]; simp only [DispatchOutcome.ran]; omega
            obtain ⟨m, hm, hm4⟩ := ih m1 (j + 1) (by omega) hj
            refine ⟨m, ?_, hm4⟩
            simp only [List.take_succ_cons, applySeq, ha]
            exact hm

/-! ### `dllClientCommand` branch equations -/

theorem dll_when_supercede (commands : List CommandOptions) (rtext : String)
    (meta0 : Int) (h : meta0 = MRES_SUPERCEDE) :
    dllClientCommand commands rtext meta0 = .ok meta0 [] := by
  simp [dllClientCommand, h]

theorem dll_when_no_match (commands : List CommandOptions) (rtext : String)
    (meta0 : Int) (h0 : meta0 ≠ MRES_SUPERCEDE)
    (h1 : matchedAll commands rtext = []) :
    dllClientCommand commands rtext meta0 = .ok meta0 [] := by
  unfold matchedAll at h1
  simp only [dllClientCommand, if_neg h0]
  rw [List.isEmpty_iff.mpr h1]
  simp

theorem dll_loop_exn (commands : List CommandOptions) (rtext : String)
    (meta0 : Int) (m : Int) (r : List CommandOptions)
    (h0 : meta0 ≠ MRES_SUPERCEDE) (hne : matchedAll commands rtext ≠ [])
    (h2 : runHandlerLoop (matchedAll commands rtext) meta0 = .exn m r) :
    dllClientCommand commands rtext meta0 = .exn m r := by
  unfold matchedAll at hne h2
  simp only [dllClientCommand, if_neg h0]
  rw [(by simpa using List.isEmpty_iff.not.mpr hne : ((matchedCommands commands
    rtext).1 ++ (matchedCommands commands rtext).2).isEmpty = false)]
  simp only [Bool.false_eq_true, if_false, h2]

theorem dll_loop_ok (commands : List CommandOptions) (rtext : String)
    (meta0 : Int) (m : Int) (r : List CommandOptions)
    (h0 : meta0 ≠ MRES_SUPERCEDE) (hne : matchedAll commands rtext ≠ [])
    (h2 : runHandlerLoop (matchedAll commands rtext) meta0 = .ok m r) :
    dllClientCommand commands rtext meta0 =
      (if (matchedCommands commands rtext).1.isEmpty ∧ m = MRES_IGNORED
       then .ok MRES_SUPERCEDE r else .ok m r) := by
  unfold matchedAll at hne h2
  simp only [dllClientCommand, if_neg h0]
  rw [(by simpa using List.isEmpty_iff.not.mpr hne : ((matchedCommands commands
    rtext).1 ++ (matchedCommands commands rtext).2).isEmpty = false)]
  simp only [Bool.false_eq_true, if_false, h2]

theorem dll_ran_isInitSeg (commands : List CommandOptions) (rtext : String)
    (meta0 : Int) :
    ∃ t, (dllClientCommand commands rtext meta0).ran ++ t
      = matchedAll commands rtext := by
  by_cases h0 : meta0 = MRES_SUPERCEDE
  · rw [dll_when_supercede commands rtext meta0 h0]
    exact ⟨matchedAll commands rtext, rfl⟩
  · by_cases hne : matchedAll commands rtext = []
    · rw [dll_when_no_match commands rtext meta0 h0 hne]
      exact ⟨matchedAll commands rtext, rfl⟩
    · obtain ⟨t, ht⟩ := runHandlerLoop_ran_isInitSeg (matchedAll commands rtext) meta0
      cases h2 : runHandlerLoop (matchedAll commands rtext) meta0 with
      | exn m r =>
        rw [dll_loop_exn commands rtext meta0 m r h0 hne h2]
        rw [h2] at ht
        exact ⟨t, ht⟩
      | ok m r =>
        have hd := dll_loop_ok commands rtext meta0 m r h0 hne h2
        rw [h2] at ht
        by_cases hauto : (matchedCommands commands rtext).1.isEmpty ∧ m = MRES_IGNORED
        · rw [if_pos hauto] at hd
          rw [hd]
          exact ⟨t, ht⟩
        · rw [if_neg hauto] at hd
          rw [hd]
          exact ⟨t, ht⟩

theorem dll_early_stop_only_supercede (commands : List CommandOptions)
    (rtext : String) (meta0 : Int) :
    ∀ (m : Int) (r : List CommandOptions),
      dllClientCommand commands rtext meta0 = .ok m r →
      r.length < (matchedAll commands rtext).length → m = MRES_SUPERCEDE := by
  intro m r h hl
  by_cases h0 : meta0 = MRES_SUPERCEDE
  · rw [dll_when_supercede commands rtext meta0 h0] at h
    injection h with h1 h2
    rw [← h1, h0]
  · by_cases hne : matchedAll commands rtext = []
    · rw [dll_when_no_match commands rtext meta0 h0 hne] at h
      injection h with h1 h2
      rw [hne] at hl
      subst h2
      simp at hl
    · cases h2 : runHandlerLoop (matchedAll commands rtext) meta0 with
      | exn m2 r2 =>
        rw [dll_loop_exn commands rtext meta0 m2 r2 h0 hne h2] at h
        cases h
      | ok m2 r2 =>
        have hd := dll_loop_ok commands rtext meta0 m2 r2 h0 hne h2
        by_cases hauto : (matchedCommands commands rtext).1.isEmpty ∧ m2 = MRES_IGNORED
        · rw [if_pos hauto] at hd
          rw [hd] at h
          injection h with h3 h4
          rw [← h3]
        · rw [if_neg hauto] at hd
          rw [hd] at h
          injection h with h3 h4
          rw [← h3]
          rw [← h4] at hl
          exact runHandlerLoop_early_stop (matchedAll commands rtext) meta0 m2 r2 h2 hl

theorem dll_no_overrun (commands : List CommandOptions) (rtext : String)
    (meta0 : Int) :
    ∀ k : Nat, 0 < k → k < (dllClientCommand commands rtext meta0).ran.length →
      ∃ m, applySeq ((matchedAll commands rtext).take k) meta0 = .ok m ∧
        m ≠ MRES_SUPERCEDE := by
  intro k hk0 hk
  by_cases h0 : meta0 = MRES_SUPERCEDE
  · rw [dll_when_supercede commands rtext meta0 h0] at hk
    simp [DispatchOutcome.ran] at hk
  · by_cases hne : matchedAll commands rtext = []
    · rw [dll_when_no_match commands rtext meta0 h0 hne] at hk
      simp [DispatchOutcome.ran] at hk
    · cases h2 : runHandlerLoop (matchedAll commands rtext) meta0 with
      | exn m2 r2 =>
        rw [dll_loop_exn commands rtext meta0 m2 r2 h0 hne h2] at hk
        apply runHandlerLoop_no_overrun (matchedAll commands rtext) meta0 k hk0
        rw [h2]
        exact hk
      | ok m2 r2 =>
        have hd := dll_loop_ok commands rtext meta0 m2 r2 h0 hne h2
        by_cases hauto : (matchedCommands commands rtext).1.isEmpty ∧ m2 = MRES_IGNORED
        · rw [if_pos hauto] at hd
          rw [hd] at hk
          apply runHandlerLoop_no_overrun (matchedAll commands rtext) meta0 k hk0
          rw [h2]
          exact hk
        · rw [if_neg hauto] at hd
          rw [hd] at hk
          apply runHandlerLoop_no_overrun (matchedAll commands rtext) meta0 k hk0
          rw [h2]
          exact hk

/-- C4: an incoming client-command tick whose shared signal already reads
SUPERCEDE runs no handlers; otherwise matched client-context registrations
run before matched console-context registrations, each group in
registration order (the executed handlers are always a prefix of the
client++console match list); a synchronously returned numeric result code
is applied to the signal while a promise-valued result never is; and
iteration stops as soon as the signal equals SUPERCEDE after a handler runs
(an early stop implies the signal reads SUPERCEDE, and no executed
intermediate prefix had left it at SUPERCEDE). -/
theorem C4_dispatch_order_and_early_stop (commands : List CommandOptions)
    (rtext : String) (meta0 : Int) :
    (meta0 = MRES_SUPERCEDE →
      dllClientCommand commands rtext meta0 = .ok meta0 []) ∧
    (∃ t, (dllClientCommand commands rtext meta0).ran ++ t
      = matchedAll commands rtext) ∧
    (∀ (eff : Int → Int) (v w meta : Int),
      applyHandler ⟨eff, .mres v⟩ meta = .ok v ∧
      applyHandler ⟨eff, .promise w⟩ meta = .ok (eff meta)) ∧
    (∀ (m : Int) (r : List CommandOptions),
      dllClientCommand commands rtext meta0 = .ok m r →
      r.length < (matchedAll commands rtext).length → m = MRES_SUPERCEDE) ∧
    (∀ k : Nat, 0 < k → k < (dllClientCommand commands rtext meta0).ran.length →
      ∃ m, applySeq ((matchedAll commands rtext).take k) meta0 = .ok m ∧
        m ≠ MRES_SUPERCEDE) :=
  ⟨fun h => dll_when_supercede commands rtext meta0 h,
   dll_ran_isInitSeg commands rtext meta0,
   fun _ _ _ _ => ⟨rfl, rfl⟩,
   dll_early_stop_only_supercede commands rtext meta0,
   dll_no_overrun commands rtext meta0⟩

/-- C4 witness: the dispatch theorem applied at concrete inputs — a
pre-suppressed tick runs nothing, a synchronous numeric result is applied,
a promise result is not. -/
theorem C4_dispatch_order_and_early_stop_witness :
    dllClientCommand [] "x" MRES_SUPERCEDE = .ok MRES_SUPERCEDE []
    ∧ applyHandler ⟨fun m => m, .mres 2⟩ 1 = .ok 2
    ∧ applyHandler ⟨fun m => m, .promise 2⟩ 1 = .ok 1 :=
  ⟨(C4_dispatch_order_and_early_stop [] "x" MRES_SUPERCEDE).1 rfl,
   ((C4_dispatch_order_and_early_stop [] "x" MRES_SUPERCEDE).2.2.1
      (fun m => m) 2 2 1).1,
   ((C4_dispatch_order_and_early_stop [] "x" MRES_SUPERCEDE).2.2.1
      (fun m => m) 2 2 1).2⟩

/-- C5: when at least one registration matched but none was client-context
and the loop left the signal at its neutral IGNORED default, the dispatcher
forces SUPERCEDE; when a client-context registration matched the loop result
is left untouched; when nothing matched the dispatcher returns with the
signal unchanged. -/
theorem C5_auto_suppress (commands : List CommandOptions) (rtext : String)
    (meta0 : Int) (h0 : meta0 ≠ MRES_SUPERCEDE) :
    (∀ r : List CommandOptions,
      matchedAll commands rtext ≠ [] →
      (matchedCommands commands rtext).1 = [] →
      runHandlerLoop (matchedAll commands rtext) meta0 = .ok MRES_IGNORED r →
      dllClientCommand commands rtext meta0 = .ok MRES_SUPERCEDE r) ∧
    (∀ (m : Int) (r : List CommandOptions),
      (matchedCommands commands rtext).1 ≠ [] →
      runHandlerLoop (matchedAll commands rtext) meta0 = .ok m r →
      dllClientCommand commands rtext meta0 = .ok m r) ∧
    (matchedAll commands rtext = [] →
      dllClientCommand commands rtext meta0 = .ok meta0 []) := by
  refine ⟨?_, ?_, fun h1 => dll_when_no_match commands rtext meta0 h0 h1⟩
  · intro r hne hcl h2
    have hd := dll_loop_ok commands rtext meta0 MRES_IGNORED r h0 hne h2
    rw [if_pos ⟨List.isEmpty_iff.mpr hcl, rfl⟩] at hd
    exact hd
  · intro m r hcl h2
    have hne : matchedAll commands rtext ≠ [] := by
      unfold matchedAll
      intro hh
      exact hcl (List.append_eq_nil.mp hh).1
    have hd := dll_loop_ok commands rtext meta0 m r h0 hne h2
    have hfalse : ¬((matchedCommands commands rtext).1.isEmpty ∧ m = MRES_IGNORED) := by
      intro hh
      exact hcl (List.isEmpty_iff.mp hh.1)
    rw [if_neg hfalse] at hd
    exact hd

/-- C5 witness: the auto-suppress theorem applied to a registry holding a
single console-context handler that sets no result code. -/
theorem C5_auto_suppress_witness :
    dllClientCommand [consoleOnlyCmd] "w" 1 = .ok MRES_SUPERCEDE [consoleOnlyCmd] :=
  (C5_auto_suppress [consoleOnlyCmd] "w" 1 (by decide)).1 [consoleOnlyCmd]
    (fun h => List.noConfusion h) rfl rfl

/-- C3 counterexample: a client-context handler that throws during
`dllClientCommand` dispatch is not caught — the exception escapes the
dispatch loop (the claim asserts it is caught at the dispatch boundary). -/
theorem C3_counterexample_client_dispatch_throws :
    (dllClientCommand [throwingClientCmd] "x" MRES_IGNORED).isExn = true := rfl

/-- C3 amended: handler exceptions are contained for engine-registered
console-command adapters and for menu-item handlers (caught, logged with
context, and processing/teardown continues), but a handler that throws
during client-command dispatch is not caught: the exception aborts the
remaining handlers of the tick and propagates out of the listener. -/
theorem C3_amended_exception_containment :
    (∀ (name : String) (handler : CommandContextM → HandlerExc)
        (engArgs : List String) (engRaw : String),
      handler ⟨engRaw, engArgs, none⟩ = .throwExn →
      consoleHandler name handler engArgs engRaw
        = ["Error in console command " ++ name]) ∧
    (∀ (table : List MenuDef) (sys : MenuSys) (client ref : Nat)
        (st : SessionState) (menu : MenuDef) (s : Int) (item : MenuItemM),
      alook sys.heap ref = some st →
      table.get? st.menuIdx = some menu →
      (if ((st.currentPage * ITEMS_PER_PAGE : Nat) : Int) + (s - 1) < 0 then none
       else menu.items.get?
         (((st.currentPage * ITEMS_PER_PAGE : Nat) : Int) + (s - 1)).toNat)
        = some item →
      item.disabled = false →
      item.submenu = none →
      item.handler = some true →
      (handleItemSelection table sys client ref s).2 = ["Menu handler error:"] ∧
      (st.isAll = false →
        alook (handleItemSelection table sys client ref s).1.menuStates
          (MKey.player client) = none)) ∧
    (∀ (eff : Int → Int) (meta0 : Int), meta0 ≠ MRES_SUPERCEDE →
      dllClientCommand [⟨"x", .client, ⟨eff, .throwExn⟩⟩] "x" meta0
        = .exn (eff meta0) [⟨"x", .client, ⟨eff, .throwExn⟩⟩]) := by
  refine ⟨?_, ?_, ?_⟩
  · intro name handler engArgs engRaw hthrow
    simp only [consoleHandler, hthrow]
  · intro table sys client ref st menu s item hst hm hit hdis hsub hh
    constructor
    · simp only [handleItemSelection, hst, hm, hit, hdis, hsub, hh,
        Bool.false_eq_true, if_false, if_true]
    · intro hall
      simp only [handleItemSelection, hst, hm, hit, hdis, hsub, hh,
        Bool.false_eq_true, if_false]
      have hall1 : ({ st with used := st.used ++ [client] } : SessionState).isAll
          = false := hall
      rw [if_neg (by rw [hall1]; exact Bool.false_ne_true)]
      simp only [cleanupMenuState, alook_aset_self]
      rw [if_neg (by rw [hall1]; exact Bool.false_ne_true)]
      exact alook_adel _ _
  · intro eff meta0 h0
    unfold dllClientCommand
    rw [if_neg h0]
    rfl

/-- C3 witness: the containment theorem applied at concrete inputs — a
throwing console handler is logged, a throwing menu-item handler is logged
and the session torn down, a throwing client-dispatch handler escapes. -/
theorem C3_amended_exception_containment_witness :
    consoleHandler "stats" (fun _ => .throwExn) [] ""
      = ["Error in console command stats"]
    ∧ (handleItemSelection c3table c3sys 1 0 1).2 = ["Menu handler error:"]
    ∧ alook (handleItemSelection c3table c3sys 1 0 1).1.menuStates
        (MKey.player 1) = none
    ∧ dllClientCommand [throwingClientCmd] "x" 1
        = .exn 1 [throwingClientCmd] :=
  ⟨C3_amended_exception_containment.1 "stats" (fun _ => .throwExn) [] "" rfl,
   (C3_amended_exception_containment.2.1 c3table c3sys 1 0
      ⟨0, 0, [], false, [], none⟩ c3menu 1 c3item rfl rfl (by decide) rfl rfl
      rfl).1,
   (C3_amended_exception_containment.2.1 c3table c3sys 1 0
      ⟨0, 0, [], false, [], none⟩ c3menu 1 c3item rfl rfl (by decide) rfl rfl
      rfl).2 rfl,
   C3_amended_exception_containment.2.2 (fun m => m) 1 (by decide)⟩

/-- C9 counterexample: a `menuselect` client command arriving when no menu
session exists (neither for the issuing client nor for `'all'`) returns
without touching the shared signal — the claim asserts SUPERCEDE is forced
even in that case. -/
theorem C9_counterexample_no_session :
    (handleMenuCommand [] emptyMenuSys 1 "menuselect 1" MRES_IGNORED).2.1
        = MRES_IGNORED
    ∧ (handleMenuCommand [] emptyMenuSys 1 "menuselect 1" MRES_IGNORED).2.1
        ≠ MRES_SUPERCEDE := by
  exact ⟨rfl, by decide⟩

/-- C9 amended: a `menuselect`-prefixed client command forces the shared
signal to SUPERCEDE before any navigation or selection processing whenever
a session exists for the issuing client or for `'all'`; when neither
session exists the handler returns with the state and signal unchanged. -/
theorem C9_amended_menuselect_suppress (table : List MenuDef) (sys : MenuSys)
    (client : Nat) (text : String) (meta : Int)
    (h1 : (jsSplitSpace text).headD "" = "menuselect") :
    (((alook sys.menuStates (MKey.player client)).orElse
        (fun _ => alook sys.menuStates MKey.all)).isSome →
      (handleMenuCommand table sys client text meta).2.1 = MRES_SUPERCEDE) ∧
    (((alook sys.menuStates (MKey.player client)).orElse
        (fun _ => alook sys.menuStates MKey.all)) = none →
      handleMenuCommand table sys client text meta = (sys, meta, [])) := by
  constructor
  · intro hsome
    obtain ⟨ref, href⟩ := Option.isSome_iff_exists.mp hsome
    simp only [handleMenuCommand, h1, ne_eq, not_true_eq_false, if_false,
      href]
    cases hsel : jsParseInt ((jsSplitSpace text).getD 1 "") with
    | none => rfl
    | some s =>
      dsimp only
      split_ifs <;> rfl
  · intro hnone
    simp only [handleMenuCommand, h1, ne_eq, not_true_eq_false, if_false,
      hnone]

/-- C9 witness: the amended theorem applied to a concrete system with a live
session for the issuing client, and to one with no session. -/
theorem C9_amended_menuselect_suppress_witness :
    (handleMenuCommand c3table c3sys 1 "menuselect 5" MRES_IGNORED).2.1
        = MRES_SUPERCEDE
    ∧ handleMenuCommand c3table emptyMenuSys 1 "menuselect 5" MRES_IGNORED
        = (emptyMenuSys, MRES_IGNORED, []) :=
  ⟨(C9_amended_menuselect_suppress c3table c3sys 1 "menuselect 5"
      MRES_IGNORED (by decide)).1 (by decide),
   (C9_amended_menuselect_suppress c3table emptyMenuSys 1 "menuselect 5"
      MRES_IGNORED (by decide)).2 rfl⟩

/-- C2: demonstration of the code's behavior on the claim's failing input.
Showing `menuB` to client 1 while `menuA`'s session still has a pending
auto-close timer leaves the prior session's timer armed (handle 1, bound to
the stale state object at ref 0); the replacement session (ref 1) is
installed under the same key; and when the stale timer later fires, its
cleanup deletes the replacement session from the session table. -/
theorem C2_stale_timer_destroys_replacement :
    alook (showMenu c2table (showMenu c2table emptyMenuSys 0 []) 1 []).menuStates
        (MKey.player 1) = some 1
    ∧ alook (showMenu c2table (showMenu c2table emptyMenuSys 0 []) 1 []).timers 1
        = some (1, 0)
    ∧ alook (fireTimer
        (showMenu c2table (showMenu c2table emptyMenuSys 0 []) 1 []) 1).menuStates
        (MKey.player 1) = none := by
  exact ⟨rfl, rfl, rfl⟩

/-- C10: `closeMenu(client)` for a client with no per-client session falls
back to the shared `'all'` session: it clears that session's timer and
deletes the `'all'` entry (tearing the broadcast menu down for every
player); only when neither session exists is `closeMenu` a no-op. -/
theorem C10_closeMenu_all_fallback (sys : MenuSys) (client : Nat) (ref : Nat)
    (st : SessionState)
    (h1 : alook sys.menuStates (MKey.player client) = none)
    (h2 : alook sys.menuStates MKey.all = some ref)
    (h3 : alook sys.heap ref = some st)
    (h4 : st.isAll = true) :
    closeMenu sys client =
      { sys with
        timers := match st.timeoutId with
          | some tid => adel sys.timers tid
          | none => sys.timers,
        menuStates := adel sys.menuStates MKey.all } ∧
    (∀ (sys2 : MenuSys) (c2 : Nat),
      alook sys2.menuStates (MKey.player c2) = none →
      alook sys2.menuStates MKey.all = none →
      closeMenu sys2 c2 = sys2) := by
  constructor
  · simp only [closeMenu, h1, Option.orElse, h2, cleanupMenuState, h3, h4,
      if_true]
  · intro sys2 c2 g1 g2
    simp only [closeMenu, g1, Option.orElse, g2]

/-- C10 witness: the fallback theorem applied to the concrete broadcast
session (client 3 has no per-client session; the `'all'` session at ref 1
holds timer handle 2). -/
theorem C10_closeMenu_all_fallback_witness :
    closeMenu c10sys 3 =
      { c10sys with
        timers := match (⟨0, 0, [], true, [], some 2⟩ : SessionState).timeoutId with
          | some tid => adel c10sys.timers tid
          | none => c10sys.timers,
        menuStates := adel c10sys.menuStates MKey.all } :=
  (C10_closeMenu_all_fallback c10sys 3 1 ⟨0, 0, [], true, [], some 2⟩
    rfl rfl rfl rfl).1

/-! ## Capture/replay properties -/

theorem runMsg_append (preL postL : String → Nat) (msgName : Int → String)
    (l1 l2 : List MsgEvent) : ∀ st : Option CapState,
    runMsg preL postL msgName st (l1 ++ l2) =
      ((runMsg preL postL msgName
          (runMsg preL postL msgName st l1).1 l2).1,
       (runMsg preL postL msgName st l1).2 ++
         (runMsg preL postL msgName
           (runMsg preL postL msgName st l1).1 l2).2) := by
  induction l1 with
  | nil => intro st; simp [runMsg]
  | cons e es ih =>
    intro st
    simp only [List.cons_append, runMsg, List.append_eq]
    rw [ih ((msgStep preL postL msgName st e).1)]
    simp [List.append_assoc]

theorem runMsg_writes_capture (preL postL : String → Nat)
    (msgName : Int → String) (fs : List MsgField) : ∀ s : CapState,
    s.isMessageEnd = false →
    runMsg preL postL msgName (some s) (writeEvents fs) =
      (some { s with data := s.data ++ fs.map (·.2),
                     rawData := s.rawData ++ fs }, []) := by
  induction fs with
  | nil => intro s hs; simp [writeEvents, runMsg]
  | cons f fs ih =>
    intro s hs
    simp only [writeEvents, List.map_cons, runMsg, msgStep, hs,
      Bool.false_eq_true, if_false, normValue_eq]
    have ih2 := ih ⟨s.dest, s.type, s.name, s.origin, s.entity,
      s.data ++ [f.2], s.rawData ++ [(f.1, f.2)], false⟩ rfl
    simp only [writeEvents] at ih2
    rw [ih2]
    simp [List.append_assoc]

theorem runMsg_writes_passthrough (preL postL : String → Nat)
    (msgName : Int → String) (fs : List MsgField) :
    runMsg preL postL msgName none (writeEvents fs) = (none, writeCalls fs) := by
  induction fs with
  | nil => simp [writeEvents, writeCalls, runMsg]
  | cons f fs ih =>
    simp only [writeEvents, writeCalls, List.map_cons, runMsg, msgStep] at ih ⊢
    rw [ih]
    simp

/-- C1: for a begin → N writes → end → post-end host sequence, the calls
that reach the host's write primitives are exactly the N captured values
with their type tags in arrival order, for every listener configuration
(0, 1 or many pre/post listeners) — the wire output never depends on the
listener count; moreover when any listener is registered for the message
name, no write reaches the host before the end event (the fields are
buffered in arrival order) and they are all re-emitted by the end event. -/
theorem C1_capture_replay (preL postL : String → Nat) (msgName : Int → String)
    (d t : Int) (o : List Int) (e : Option Int) (fs : List MsgField) :
    runMsg preL postL msgName none
        (MsgEvent.begin d t o e ::
          (writeEvents fs ++ [MsgEvent.endMsg, MsgEvent.postEnd]))
      = (none, HostCall.msgBegin d t o e :: (writeCalls fs ++ [HostCall.msgEnd]))
    ∧ (¬(preL (msgName t) = 0 ∧ postL (msgName t) = 0) →
        runMsg preL postL msgName none (MsgEvent.begin d t o e :: writeEvents fs)
          = (some ⟨d, t, msgName t, o, e, fs.map (·.2), fs, false⟩,
             [HostCall.msgBegin d t o e])) := by
  by_cases hL : preL (msgName t) = 0 ∧ postL (msgName t) = 0
  · constructor
    · have hbegin : msgStep preL postL msgName none (.begin d t o e)
          = (none, [.msgBegin d t o e]) := by
        simp only [msgStep, if_pos hL]
      simp only [runMsg]
      rw [hbegin,
        runMsg_append preL postL msgName (writeEvents fs)
          [MsgEvent.endMsg, MsgEvent.postEnd] none,
        runMsg_writes_passthrough preL postL msgName fs]
      simp [runMsg, msgStep, writeCalls]
    · intro h
      exact absurd hL h
  · have hbegin : msgStep preL postL msgName none (.begin d t o e)
        = (some ⟨d, t, msgName t, o, e, [], [], false⟩, [.msgBegin d t o e]) := by
      simp only [msgStep, if_neg hL]
    have hcap := runMsg_writes_capture preL postL msgName fs
      ⟨d, t, msgName t, o, e, [], [], false⟩ rfl
    constructor
    · simp only [runMsg]
      rw [hbegin,
        runMsg_append preL postL msgName (writeEvents fs)
          [MsgEvent.endMsg, MsgEvent.postEnd]
          (some ⟨d, t, msgName t, o, e, [], [], false⟩),
        hcap]
      simp [runMsg, msgStep, writerNorm_eq, writeCalls]
    · intro _
      simp only [runMsg]
      rw [hbegin, hcap]
      simp

/-- C1 witness: the capture/replay theorem applied to a concrete message
with one registered pre-listener and a single byte write: the begin event
opens a capture, the write is buffered (reaching no host primitive), and
the buffer holds exactly the written field. -/
theorem C1_capture_replay_witness :
    runMsg (fun _ => 1) (fun _ => 0) (fun _ => "M") none
        (MsgEvent.begin 2 7 [0, 0, 0] none ::
          writeEvents [(MsgFieldType.byte, MValue.num 4)])
      = (some ⟨2, 7, "M", [0, 0, 0], none, [MValue.num 4],
          [(MsgFieldType.byte, MValue.num 4)], false⟩,
         [HostCall.msgBegin 2 7 [0, 0, 0] none]) :=
  (C1_capture_replay (fun _ => 1) (fun _ => 0) (fun _ => "M") 2 7 [0, 0, 0]
    none [(MsgFieldType.byte, MValue.num 4)]).2 (by decide)

/-- C8: `send({type: 'TextMsg', dest: all, data: [byte 4, string 'hi']})`
issues exactly one `messageBegin(all, id, [0,0,0], null)` → `writeByte(4)`
→ `writeString('hi')` → `messageEnd()` host sequence, where the broadcast
destination forces the recipient entity to null whatever entity option was
supplied; and the interceptor's begin handler opens a capture for the
resulting begin event iff some listener is registered for `'TextMsg'`. -/
theorem C8_send_textmsg_end_to_end (resolve : String → Int) (e : Option Int)
    (preL postL : String → Nat) (msgName : Int → String)
    (h : resolve "TextMsg" ≠ 0) (hn : msgName (resolve "TextMsg") = "TextMsg") :
    send resolve ⟨.byName "TextMsg", some 2, e, none,
        [(MsgFieldType.byte, MValue.num 4), (MsgFieldType.string, MValue.str "hi")]⟩
      = [HostCall.msgBegin 2 (resolve "TextMsg") [0, 0, 0] none,
         HostCall.write .byte (.num 4), HostCall.write .string (.str "hi"),
         HostCall.msgEnd]
    ∧ ((msgStep preL postL msgName none
          (MsgEvent.begin 2 (resolve "TextMsg") [0, 0, 0] none)).1.isSome
        ↔ ¬(preL "TextMsg" = 0 ∧ postL "TextMsg" = 0)) := by
  constructor
  · rw [show send resolve ⟨.byName "TextMsg", some 2, e, none,
          [(MsgFieldType.byte, MValue.num 4),
           (MsgFieldType.string, MValue.str "hi")]⟩
        = (if resolve "TextMsg" = 0 then []
           else [HostCall.msgBegin 2 (resolve "TextMsg") [0, 0, 0] none,
                 HostCall.write .byte (.num 4),
                 HostCall.write .string (.str "hi"),
                 HostCall.msgEnd]) from rfl,
        if_neg h]
  · simp only [msgStep, hn]
    by_cases hL : preL "TextMsg" = 0 ∧ postL "TextMsg" = 0
    · rw [if_pos hL]
      simp [hL]
    · rw [if_neg hL]
      simp [hL]

/-- C8 witness: the end-to-end theorem applied at a concrete resolution
table (id 5) and an explicitly supplied entity (index 3), which the
broadcast destination discards. -/
theorem C8_send_textmsg_end_to_end_witness :
    send (fun _ => 5) ⟨.byName "TextMsg", some 2, some 3, none,
        [(MsgFieldType.byte, MValue.num 4), (MsgFieldType.string, MValue.str "hi")]⟩
      = [HostCall.msgBegin 2 5 [0, 0, 0] none,
         HostCall.write .byte (.num 4), HostCall.write .string (.str "hi"),
         HostCall.msgEnd] :=
  (C8_send_textmsg_end_to_end (fun _ => 5) (some 3) (fun _ => 1) (fun _ => 0)
    (fun _ => "TextMsg") (by decide) rfl).1

end NodemodCore

